import Mathlib

/-!
Verification development for the adb-photo-sync repository.

The Python sources are shallowly embedded as executable Lean definitions:

* `src/adb_manager.py` — device listing/selection (`ADBDeviceManager`),
  the per-file push retry loop (`_push_file`), the batch loop (`push_files`),
  and the reindex broadcast batching (`_batch_reindex_broadcasts`,
  `_send_reindex_broadcast`);
* `src/main.py` — the legacy flow: `calculate_metadata`, `adb_push_files`,
  `delete_files_in_folder`;
* `src/media_file_processor.py` — `_should_sync_file`, `_validate_file_size`
  and the class-based `calculate_metadata`.

External effects (the adb subprocess calls, the filesystem, user input) are
modelled as oracle parameters: every `subprocess.run(['adb', ...])` call made
through `ADBDeviceManager._run_adb_command` is an `AdbOutcome` supplied by the
environment, and file metadata (size, mtime, HEIC-conversion result) is
carried by the input records.

String primitives are re-implemented over `List Char` (structural recursion)
so that every definition evaluates inside the kernel; they mirror the Python
string operations used by the sources (`strip`, `split`, `lower`, `upper`,
`endswith`, substring containment, `'\n'` splitting).
-/

set_option maxRecDepth 8192

namespace AdbPhotoSync

/-! ### String primitives (kernel-computable, mirroring Python semantics) -/

def emptyStr : String := ""

def spaceStr : String := " "

def slashStr : String := "/"

def nlChar : Char := Char.ofNat 10

def strChars (s : String) : List Char := s.data

def charsToStr (cs : List Char) : String := String.mk cs

def isSpaceChar (c : Char) : Bool := c.isWhitespace

/-- Python `str.strip()`: drop whitespace from both ends. -/
def trimChars (cs : List Char) : List Char :=
  ((cs.dropWhile isSpaceChar).reverse.dropWhile isSpaceChar).reverse

def strTrim (s : String) : String := charsToStr (trimChars (strChars s))

def strIsBlank (s : String) : Bool := (trimChars (strChars s)).isEmpty

/-- Python `str.split(sep)` for a one-character separator (keeps empty parts). -/
def splitCharsOn (sep : Char) : List Char → List (List Char)
  | [] => [[]]
  | c :: rest =>
    let r := splitCharsOn sep rest
    if c == sep then [] :: r
    else
      match r with
      | [] => [[c]]
      | g :: gs => (c :: g) :: gs

/-- Python `s.split('\n')`. -/
def strSplitLines (s : String) : List String :=
  (splitCharsOn nlChar (strChars s)).map charsToStr

/-- Helper for Python whitespace `str.split()` (no separator argument):
splits on runs of whitespace and drops empty fields. -/
def splitWsGo (acc : List Char) : List Char → List (List Char)
  | [] => if acc.isEmpty then [] else [acc.reverse]
  | c :: rest =>
    if isSpaceChar c then
      if acc.isEmpty then splitWsGo [] rest
      else acc.reverse :: splitWsGo [] rest
    else splitWsGo (c :: acc) rest

def strSplitWs (s : String) : List String :=
  (splitWsGo [] (strChars s)).map charsToStr

def strToLower (s : String) : String :=
  charsToStr ((strChars s).map Char.toLower)

def strToUpper (s : String) : String :=
  charsToStr ((strChars s).map Char.toUpper)

def charListStartsWith : List Char → List Char → Bool
  | [], _ => true
  | _ :: _, [] => false
  | a :: as, b :: bs => a == b && charListStartsWith as bs

/-- Python `needle in hay` (substring containment). -/
def charListHasSub (needle : List Char) : List Char → Bool
  | [] => needle.isEmpty
  | c :: rest => charListStartsWith needle (c :: rest) || charListHasSub needle rest

def strHasSub (hay needle : String) : Bool :=
  charListHasSub (strChars needle) (strChars hay)

/-- Python `str.endswith(suffix)`. -/
def strEndsWith (s suffix : String) : Bool :=
  charListStartsWith (strChars suffix).reverse (strChars s).reverse

/-- Python `' '.join(items)`. -/
def joinWithSpace : List String → String
  | [] => emptyStr
  | [s] => s
  | s :: rest => s ++ spaceStr ++ joinWithSpace rest

/-! ### Bridge command outcomes

`ADBDeviceManager._run_adb_command` (src/adb_manager.py lines 331-354) runs
`subprocess.run(['adb'] + command, capture_output=True, text=True,
timeout=30, check=True)`:

* exit code `0` returns a `CompletedProcess` carrying `stdout`/`stderr`;
* a non-zero exit code raises `subprocess.CalledProcessError`
  (because of `check=True`), which also carries the captured output;
* `subprocess.TimeoutExpired` is converted to `DeviceConnectionError`.
-/

inductive AdbOutcome where
  | ok (stdoutStr stderrStr : String)
  | calledProcessError (stdoutStr stderrStr : String)
  | timedOut
  deriving DecidableEq

def AdbOutcome.exitZero : AdbOutcome → Bool
  | .ok _ _ => true
  | _ => false

/-! ### The per-file push retry loop (`ADBDeviceManager._push_file`,
src/adb_manager.py lines 244-293)

Each iteration of `for attempt in range(self._max_retries)` performs two
bridge calls — `shell mkdir -p <parent>` and `push <local> <remote>` — and
declares the attempt successful iff the push call returned (exit code 0,
because `check=True`) and `"bytes in" in result.stderr`.  A
`subprocess.CalledProcessError` from either call is caught; the loop then
sleeps 1 second when `attempt < self._max_retries - 1` and retries.  A
marker-less zero-exit push falls through to the next iteration without any
sleep.  A `DeviceConnectionError` (timeout) is not caught by the
`except subprocess.CalledProcessError` clause and escapes `_push_file`.
-/

def marker : String := "bytes in"

def containsMarker (stderrStr : String) : Bool := strHasSub stderrStr marker

structure PushAttemptEnv where
  mkdirOutcome : AdbOutcome
  pushOutcome : AdbOutcome
  deriving DecidableEq

/-- How one iteration of the retry loop ends, as seen by the control flow. -/
inductive AttemptKind where
  | okRun (stderrStr : String)
  | procError
  | timedOut
  deriving DecidableEq

def classifyAttempt (e : PushAttemptEnv) : AttemptKind :=
  match e.mkdirOutcome with
  | .timedOut => .timedOut
  | .calledProcessError _ _ => .procError
  | .ok _ _ =>
    match e.pushOutcome with
    | .timedOut => .timedOut
    | .calledProcessError _ _ => .procError
    | .ok _ stderrStr => .okRun stderrStr

def attemptIsProcError (e : PushAttemptEnv) : Bool :=
  match classifyAttempt e with
  | .procError => true
  | _ => false

def attemptHitsTimeout (e : PushAttemptEnv) : Bool :=
  match classifyAttempt e with
  | .timedOut => true
  | _ => false

/-- The success judgment `_push_file` applies to the outcome of one
`adb push` invocation (src/adb_manager.py lines 276-285): the command must
return (so, with `check=True`, its exit status must be zero) and its stderr
must contain the transfer-summary marker `"bytes in"`. -/
def pushAttemptRecordsSuccess : AdbOutcome → Bool
  | .ok _ stderrStr => containsMarker stderrStr
  | _ => false

def maxRetries : Nat := 3

inductive RunResult where
  | success (remotePath : String)
  | exhausted
  | deviceError
  deriving DecidableEq

structure PushFileOutput where
  result : RunResult
  sleeps : Nat
  progress : Nat
  attemptsMade : Nat
  deriving DecidableEq

/-- The retry loop of `_push_file`, from iteration `attempt` with `fuel`
iterations left (the caller passes `fuel = maxRetries`, matching
`for attempt in range(self._max_retries)`).  `sleeps` counts the one-second
`time.sleep(1)` calls, `progress` the bytes reported through
`progress_callback`, `attemptsMade` the loop iterations entered. -/
def pushFileGo (env : Nat → PushAttemptEnv) (size : Nat) (remote : String) :
    Nat → Nat → PushFileOutput
  | _, 0 => ⟨.exhausted, 0, 0, 0⟩
  | attempt, fuel + 1 =>
    match classifyAttempt (env attempt) with
    | .timedOut => ⟨.deviceError, 0, 0, 1⟩
    | .procError =>
      let rest := pushFileGo env size remote (attempt + 1) fuel
      ⟨rest.result, (if attempt < maxRetries - 1 then 1 else 0) + rest.sleeps,
        rest.progress, 1 + rest.attemptsMade⟩
    | .okRun stderrStr =>
      if containsMarker stderrStr then ⟨.success remote, 0, size, 1⟩
      else
        let rest := pushFileGo env size remote (attempt + 1) fuel
        ⟨rest.result, rest.sleeps, rest.progress, 1 + rest.attemptsMade⟩

/-- `ADBDeviceManager._push_file` for one file: `remote` is
`target_dir / relative_path`; `env i` supplies the two bridge-call outcomes
of iteration `i`. -/
def pushFile (env : Nat → PushAttemptEnv) (size : Nat) (remote : String) :
    PushFileOutput :=
  pushFileGo env size remote 0 maxRetries

/-! ### Reindex broadcast batching
(`ADBDeviceManager._batch_reindex_broadcasts` and `_send_reindex_broadcast`,
src/adb_manager.py lines 295-329)

`_batch_reindex_broadcasts` slices the path list into `batch_size` chunks
(`for i in range(0, len(file_paths), batch_size)`), calls
`_send_reindex_broadcast` on each, and catches only `BroadcastError`
(the wrapper for `subprocess.CalledProcessError`), logging it and moving on.
A `DeviceConnectionError` from a timed-out broadcast is not caught and
aborts the remaining batches.  `_send_reindex_broadcast` joins the batch's
paths as `' '.join('file://' + path ...)` into one `-d` argument. -/

def defaultBatchSize : Nat := 10

def fileUriHead : String := "file://"

def fileUri (p : String) : String := fileUriHead ++ p

def mkPathsArg (batch : List String) : String := joinWithSpace (batch.map fileUri)

/-- `file_paths[i:i+batch_size]` slicing, driven by a fuel bounded by the
list length (each step removes at least one element when `0 < b`). -/
def toBatchesGo (b : Nat) : Nat → List α → List (List α)
  | 0, _ => []
  | _ + 1, [] => []
  | fuel + 1, x :: xs => (x :: xs).take b :: toBatchesGo b fuel ((x :: xs).drop b)

def toBatches (b : Nat) (l : List α) : List (List α) := toBatchesGo b l.length l

structure BroadcastRun where
  argsSent : List String
  batchesAttempted : List (List String)
  aborted : Bool
  deriving DecidableEq

/-- The batch loop; `bEnv k` is the outcome of the `k`-th
`shell am broadcast` invocation. -/
def batchReindexGo (bEnv : Nat → AdbOutcome) : Nat → List (List String) → BroadcastRun
  | _, [] => ⟨[], [], false⟩
  | k, batch :: rest =>
    match bEnv k with
    | .timedOut => ⟨[mkPathsArg batch], [batch], true⟩
    | .calledProcessError _ _ =>
      let r := batchReindexGo bEnv (k + 1) rest
      ⟨mkPathsArg batch :: r.argsSent, batch :: r.batchesAttempted, r.aborted⟩
    | .ok _ _ =>
      let r := batchReindexGo bEnv (k + 1) rest
      ⟨mkPathsArg batch :: r.argsSent, batch :: r.batchesAttempted, r.aborted⟩

def batch_reindex_broadcasts (bEnv : Nat → AdbOutcome) (filePaths : List String)
    (batchSize : Nat) : BroadcastRun :=
  batchReindexGo bEnv 0 (toBatches batchSize filePaths)

/-! ### The batch transfer (`ADBDeviceManager.push_files`,
src/adb_manager.py lines 192-242)

For each file the loop calls `_push_file`; a `None` return (retries
exhausted) leaves `transferred_files` unchanged and the loop continues with
the next file.  A `DeviceConnectionError` escaping `_push_file` is not a
`FileTransferError`, so it reaches the outer `except Exception` clause and
aborts the run as a `FileTransferError`.  After the loop:
`if transferred_files:` send the reindex broadcasts, then
`SyncConfig.update_last_sync_timestamp()`, then `return True`;
otherwise `return False`. -/

structure FileSpec where
  localPath : String
  relPath : String
  size : Nat
  env : Nat → PushAttemptEnv

def mkRemote (target : String) (f : FileSpec) : String :=
  target ++ slashStr ++ f.relPath

/-- The `for local_file in files_for_transfer` loop: returns the collected
`transferred_files`, the total seconds slept, and whether an uncaught
`DeviceConnectionError` aborted the loop. -/
def pushLoop (target : String) : List FileSpec → List String × Nat × Bool
  | [] => ([], 0, false)
  | f :: rest =>
    let out := pushFile f.env f.size (mkRemote target f)
    match out.result with
    | .deviceError => ([], out.sleeps, true)
    | .success p =>
      let acc := pushLoop target rest
      (p :: acc.1, out.sleeps + acc.2.1, acc.2.2)
    | .exhausted =>
      let acc := pushLoop target rest
      (acc.1, out.sleeps + acc.2.1, acc.2.2)

structure PushFilesOutput where
  transferred : List String
  raised : Bool
  retval : Option Bool
  broadcastRun : BroadcastRun
  timestampUpdated : Bool
  sleeps : Nat
  deriving DecidableEq

def emptyBroadcastRun : BroadcastRun := ⟨[], [], false⟩

def push_files (target : String) (files : List FileSpec)
    (bEnv : Nat → AdbOutcome) : PushFilesOutput :=
  let acc := pushLoop target files
  if acc.2.2 then ⟨acc.1, true, none, emptyBroadcastRun, false, acc.2.1⟩
  else if acc.1.isEmpty then ⟨acc.1, false, some false, emptyBroadcastRun, false, acc.2.1⟩
  else
    let br := batch_reindex_broadcasts bEnv acc.1 defaultBatchSize
    if br.aborted then ⟨acc.1, true, none, br, false, acc.2.1⟩
    else ⟨acc.1, false, some true, br, true, acc.2.1⟩

/-! ### Device registry (`ADBDeviceManager._get_connected_devices`,
`select_device`, `_fetch_device_details`, `_prompt_for_device_choice`,
src/adb_manager.py lines 87-190)

`_get_connected_devices` runs `adb devices -l`, drops the header line of
`result.stdout.strip().split('\n')`, skips blank lines, whitespace-splits
each remaining line, and for lines with at least two fields resolves
`DeviceStatus[parts[1].upper()]` — a name that is not a member of the
`DeviceStatus` enum raises `KeyError`, which the surrounding
`except Exception` turns into `DeviceConnectionError` ("Failed to get device
list"), as do a `CalledProcessError` or timeout of the listing command
itself.  Only `DEVICE`-status records are appended.

`select_device` raises `DeviceConnectionError` ("No devices connected…")
when the list is empty; with one device it is taken directly, with several
the user is prompted (`get_typed_input` validated by
`1 <= x <= len(devices)`, `None` → "Device selection cancelled").  It then
calls `_fetch_device_details`, which runs two `getprop` commands and catches
only `subprocess.CalledProcessError`; a timeout's `DeviceConnectionError`
escapes and makes the surrounding `except Exception` fail the selection. -/

def deviceKeyStr : String := "DEVICE"

def unauthorizedKeyStr : String := "UNAUTHORIZED"

def offlineKeyStr : String := "OFFLINE"

def unknownKeyStr : String := "UNKNOWN"

inductive DeviceStatusM where
  | device
  | unauthorized
  | offline
  | unknown
  deriving DecidableEq

/-- `DeviceStatus[name]`: `none` models the `KeyError`. -/
def statusFromName (s : String) : Option DeviceStatusM :=
  if s = deviceKeyStr then some .device
  else if s = unauthorizedKeyStr then some .unauthorized
  else if s = offlineKeyStr then some .offline
  else if s = unknownKeyStr then some .unknown
  else none

structure DeviceInfoM where
  id : String
  status : DeviceStatusM
  model : Option String
  manufacturer : Option String
  deriving DecidableEq

/-- The line loop of `_get_connected_devices`; `.error ()` is the
`KeyError` escaping as `DeviceConnectionError`. -/
def parseDeviceLines : List String → Except Unit (List DeviceInfoM)
  | [] => .ok []
  | line :: rest =>
    if strIsBlank line then parseDeviceLines rest
    else
      match strSplitWs line with
      | idStr :: statusStr :: _ =>
        match statusFromName (strToUpper statusStr) with
        | none => .error ()
        | some st =>
          match parseDeviceLines rest with
          | .error e => .error e
          | .ok ds =>
            if st = .device then .ok (⟨idStr, st, none, none⟩ :: ds) else .ok ds
      | _ => parseDeviceLines rest

def getConnectedDevicesM (listOutcome : AdbOutcome) : Except Unit (List DeviceInfoM) :=
  match listOutcome with
  | .ok stdoutStr _ => parseDeviceLines ((strSplitLines (strTrim stdoutStr)).drop 1)
  | _ => .error ()

/-- `_fetch_device_details`: the two `getprop` calls; a
`CalledProcessError` is caught (non-fatal, fields left as they are), a
timeout escapes as `.error ()`. -/
def fetchDeviceDetailsM (d : DeviceInfoM) (modelOutcome manuOutcome : AdbOutcome) :
    Except Unit DeviceInfoM :=
  match modelOutcome with
  | .timedOut => .error ()
  | .calledProcessError _ _ => .ok d
  | .ok out1 _ =>
    match manuOutcome with
    | .timedOut => .error ()
    | .calledProcessError _ _ => .ok ⟨d.id, d.status, some (strTrim out1), d.manufacturer⟩
    | .ok out2 _ => .ok ⟨d.id, d.status, some (strTrim out1), some (strTrim out2)⟩

/-- `_prompt_for_device_choice` via `get_typed_input`: `rawChoice` is the
user's input after `int(...)` conversion (`none` covers interruption and
conversion failure); the validator `1 <= x <= len(devices)` turns an
out-of-range number into `None`, and `None` raises "Device selection
cancelled". -/
def promptForDeviceChoiceM (devs : List DeviceInfoM) (rawChoice : Option Int) :
    Option DeviceInfoM :=
  match rawChoice with
  | none => none
  | some c =>
    if 1 ≤ c ∧ c ≤ (devs.length : Int) then devs.get? (c - 1).toNat else none

inductive SelectOutcome where
  | selected (d : DeviceInfoM)
  | failedList
  | noDevices
  | cancelled
  | enrichTimedOut
  deriving DecidableEq

def select_device (listOutcome : AdbOutcome) (rawChoice : Option Int)
    (modelOutcome manuOutcome : AdbOutcome) : SelectOutcome :=
  match getConnectedDevicesM listOutcome with
  | .error _ => .failedList
  | .ok [] => .noDevices
  | .ok [d] =>
    match fetchDeviceDetailsM d modelOutcome manuOutcome with
    | .error _ => .enrichTimedOut
    | .ok d2 => .selected d2
  | .ok devs =>
    match promptForDeviceChoiceM devs rawChoice with
    | none => .cancelled
    | some d =>
      match fetchDeviceDetailsM d modelOutcome manuOutcome with
      | .error _ => .enrichTimedOut
      | .ok d2 => .selected d2

/-! ### Candidate-set computation (`calculate_metadata`, src/main.py
lines 68-103)

`os.walk` yields files; when `convert_heic` is set and the lowercased name
ends in `.heic` the file is converted (`convert_heic_to_jpg` returns the jpg
path, or `None` on failure, in which case the file is skipped) and the jpg's
metadata is used from then on.  The `is_video_file` branch only prints.  A
file is appended to `files_for_sync` when
`last_sync_timestamp is None or os.path.getmtime(path) > last_sync_timestamp`
and `os.path.getsize(path) > 0`; `total_size`/`file_count` accumulate over
exactly the appended files.  Modification times are modelled as `Int`
(epoch seconds); conversion is an external collaborator, so its result — the
converted file's path, mtime and size, or failure — is carried by the input
record. -/

def heicExtStr : String := ".heic"

structure ConvFile where
  path : String
  mtime : Int
  size : Nat
  deriving DecidableEq

structure SrcFile where
  name : String
  path : String
  mtime : Int
  size : Nat
  conv : Option ConvFile
  deriving DecidableEq

/-- The path/mtime/size that the body of the loop works with after the
HEIC-conversion step; `none` means the file is skipped (failed conversion). -/
def effectiveFile (convertHeic : Bool) (f : SrcFile) : Option (String × Int × Nat) :=
  if convertHeic && strEndsWith (strToLower f.name) heicExtStr then
    match f.conv with
    | none => none
    | some c => some (c.path, c.mtime, c.size)
  else some (f.path, f.mtime, f.size)

/-- `last_sync_timestamp is None or mtime > last_sync_timestamp`. -/
def timeFilter (lastSync : Option Int) (mtime : Int) : Bool :=
  match lastSync with
  | none => true
  | some t => decide (t < mtime)

/-- src/main.py `calculate_metadata`: returns
`(file_count, total_size, files_for_sync)`. -/
def calculate_metadata (convertHeic : Bool) (lastSync : Option Int) :
    List SrcFile → Nat × Nat × List String
  | [] => (0, 0, [])
  | f :: rest =>
    let acc := calculate_metadata convertHeic lastSync rest
    match effectiveFile convertHeic f with
    | none => acc
    | some (p, m, sz) =>
      if timeFilter lastSync m then
        if 0 < sz then (acc.1 + 1, acc.2.1 + sz, p :: acc.2.2) else acc
      else acc

/-- The entries (path, mtime, size) that `calculate_metadata` includes, in
order: positive-size files surviving conversion whose mtime passes the
incremental filter. -/
def includedEntries (convertHeic : Bool) (lastSync : Option Int)
    (files : List SrcFile) : List (String × Int × Nat) :=
  files.filterMap fun f =>
    match effectiveFile convertHeic f with
    | none => none
    | some (p, m, sz) =>
      if timeFilter lastSync m && decide (0 < sz) then some (p, m, sz) else none

/-! ### The class-based processor (`MediaFileProcessor`,
src/media_file_processor.py lines 78-192)

`calculate_metadata` iterates the scanned entries; `_process_file` converts
when `config.convert_heic` and `file_path.suffix in {'.heic', '.HEIC'}`
(returning `None` on `FileConversionError`); `_get_file_metadata` may fail
(`None`); `_should_sync_file` is
`config.sync_all or config.last_sync_timestamp is None or
modified_time > config.last_sync_timestamp`; `_validate_file_size` raises
`FileSizeError` for a zero-byte file or one above 1 GiB, which the loop
catches and skips.  Conversion and `stat` are external, so each entry
carries their results as oracles. -/

def heicExtUpperStr : String := ".HEIC"

structure MFMeta where
  path : String
  size : Nat
  mtime : Int
  deriving DecidableEq

structure MFEntry where
  suffix : String
  convMeta : Option MFMeta
  statMeta : Option MFMeta
  deriving DecidableEq

def maxFileSize : Nat := 1024 * 1024 * 1024

/-- `MediaFileProcessor._should_sync_file`. -/
def should_sync_file (syncAll : Bool) (lastSync : Option Int) (mtime : Int) : Bool :=
  syncAll ||
    match lastSync with
    | none => true
    | some t => decide (t < mtime)

/-- `MediaFileProcessor._validate_file_size`: `true` iff no `FileSizeError`
is raised. -/
def validate_file_size (m : MFMeta) : Bool :=
  !(m.size == 0) && !(decide (maxFileSize < m.size))

/-- One iteration of the `MediaFileProcessor.calculate_metadata` loop:
the metadata of the file if it is added to `files_for_sync`. -/
def processOne (convertHeic syncAll : Bool) (lastSync : Option Int)
    (e : MFEntry) : Option MFMeta :=
  let processed :=
    if convertHeic && (e.suffix == heicExtStr || e.suffix == heicExtUpperStr) then
      e.convMeta
    else e.statMeta
  match processed with
  | none => none
  | some m =>
    if should_sync_file syncAll lastSync m.mtime then
      if validate_file_size m then some m else none
    else none

/-- `MediaFileProcessor.calculate_metadata`: `(count, total, files)`. -/
def mfpCalculateMetadata (convertHeic syncAll : Bool) (lastSync : Option Int) :
    List MFEntry → Nat × Nat × List String
  | [] => (0, 0, [])
  | e :: rest =>
    let acc := mfpCalculateMetadata convertHeic syncAll lastSync rest
    match processOne convertHeic syncAll lastSync e with
    | none => acc
    | some m => (acc.1 + 1, acc.2.1 + m.size, m.path :: acc.2.2)

/-! ### The legacy entry-point flow (`adb_push_files` and
`delete_files_in_folder`, src/main.py lines 15-21 and 163-227)

`adb_push_files` returns early when no device is listed.  Each file is
pushed with a plain `subprocess.run` (no `check=True`, no marker test): the
push "succeeded" iff `result.returncode == 0`; on success a single reindex
broadcast is sent (its return code only selects a print).  A non-zero push
sets `all_files_pushed = False` and the loop continues.  After the loop,
`if all_files_pushed:` the sync timestamp is updated and the user is asked
`input(...).strip().lower()`; unless that equals `'n'`,
`delete_files_in_folder(source_dir)` removes every file under the source
tree (keeping directories).  `delete_files_in_folder` is modelled by its
effect: the set of removed files is the whole tree listing. -/

def nStr : String := "n"

structure LegacyFile where
  path : String
  relPath : String
  pushExitZero : Bool
  broadcastExitZero : Bool
  deriving DecidableEq

structure LegacyOutput where
  ran : Bool
  pushedAll : Bool
  timestampUpdated : Bool
  prompted : Bool
  deletedFiles : List String
  deriving DecidableEq

def delete_files_in_folder (tree : List String) : List String := tree

/-- `input(...).strip().lower()`. -/
def normalizeAnswer (s : String) : String := strToLower (strTrim s)

def adb_push_files (devices : List String) (files : List LegacyFile)
    (sourceTree : List String) (answer : String) : LegacyOutput :=
  if devices.isEmpty then ⟨false, false, false, false, []⟩
  else
    let allPushed := files.all fun f => f.pushExitZero
    if allPushed then
      if normalizeAnswer answer ≠ nStr then
        ⟨true, true, true, true, delete_files_in_folder sourceTree⟩
      else ⟨true, true, true, true, []⟩
    else ⟨true, false, false, false, []⟩

/-! ### Per-line device parsing, as a per-record function

Used to state the "one record per line" property of
`_get_connected_devices`: the device a single line contributes to the
READY set, if any. -/

def readyLineDevice (line : String) : Option DeviceInfoM :=
  if strIsBlank line then none
  else
    match strSplitWs line with
    | idStr :: statusStr :: _ =>
      match statusFromName (strToUpper statusStr) with
      | some st => if st = .device then some ⟨idStr, st, none, none⟩ else none
      | none => none
    | _ => none

/-! ### Concrete data used by witnesses and counterexamples -/

def okMarkerStderr : String := "100 bytes in 0.5s"

def cexStderr : String := "65 bytes in 0.01s"

def allOkAttempt : PushAttemptEnv := ⟨.ok emptyStr emptyStr, .ok emptyStr okMarkerStderr⟩

def allCpeAttempt : PushAttemptEnv :=
  ⟨.ok emptyStr emptyStr, .calledProcessError emptyStr emptyStr⟩

def noMarkerAttempt : PushAttemptEnv := ⟨.ok emptyStr emptyStr, .ok emptyStr emptyStr⟩

def targetStr : String := "/t"

def remoteStr : String := "/t/c.jpg"

def aLocalStr : String := "/s/a.jpg"

def aRelStr : String := "a.jpg"

def aRemoteStr : String := "/t/a.jpg"

def bLocalStr : String := "/s/b.jpg"

def bRelStr : String := "b.jpg"

def fileOkSpec : FileSpec := ⟨aLocalStr, aRelStr, 500, fun _ => allOkAttempt⟩

def fileBadSpec : FileSpec := ⟨bLocalStr, bRelStr, 7, fun _ => allCpeAttempt⟩

def okBEnv : Nat → AdbOutcome := fun _ => .ok emptyStr emptyStr

def timeoutBEnv : Nat → AdbOutcome := fun _ => .timedOut

def c1Files : List FileSpec := [fileOkSpec, fileBadSpec]

def c7Files : List FileSpec := [fileOkSpec]

def markerButCpeEnv : Nat → PushAttemptEnv :=
  fun _ => ⟨.ok emptyStr emptyStr, .calledProcessError emptyStr cexStderr⟩

def noMarkerEnv : Nat → PushAttemptEnv := fun _ => noMarkerAttempt

/-- Two process-error attempts, then a marker-carrying success on attempt 3
(the spec's `c.jpg` scenario). -/
def retryScenarioEnv : Nat → PushAttemptEnv := fun i =>
  match i with
  | 0 => allCpeAttempt
  | 1 => allCpeAttempt
  | _ => allOkAttempt

def aSrcFile : SrcFile := ⟨aRelStr, aLocalStr, 5, 500, none⟩

def bSrcFile : SrcFile := ⟨bRelStr, bLocalStr, 5, 0, none⟩

def scenarioFiles : List SrcFile := [aSrcFile, bSrcFile]

def deviceListStr : String := "List of devices attached\nabc device usb:1\nxyz unauthorized"

def emptyListStr : String := "List of devices attached"

def abcStr : String := "abc"

def abcDevice : DeviceInfoM := ⟨abcStr, .device, none, none⟩

def devStr : String := "d"

def legacyDevices : List String := [devStr]

def legacyOkFile : LegacyFile := ⟨aLocalStr, aRelStr, true, true⟩

def legacyFiles : List LegacyFile := [legacyOkFile]

def legacyTree : List String := [aLocalStr]

def upperNStr : String := "N"

def elevenPaths : List String := List.replicate 11 aRemoteStr

/-! ### Helper lemmas about the retry loop -/

theorem pushFileGo_zero (env : Nat → PushAttemptEnv) (size : Nat) (remote : String)
    (attempt : Nat) :
    pushFileGo env size remote attempt 0 = ⟨.exhausted, 0, 0, 0⟩ := rfl

theorem pushFileGo_succ (env : Nat → PushAttemptEnv) (size : Nat) (remote : String)
    (attempt fuel : Nat) :
    pushFileGo env size remote attempt (fuel + 1) =
      match classifyAttempt (env attempt) with
      | .timedOut => ⟨.deviceError, 0, 0, 1⟩
      | .procError =>
        let rest := pushFileGo env size remote (attempt + 1) fuel
        ⟨rest.result, (if attempt < maxRetries - 1 then 1 else 0) + rest.sleeps,
          rest.progress, 1 + rest.attemptsMade⟩
      | .okRun stderrStr =>
        if containsMarker stderrStr then ⟨.success remote, 0, size, 1⟩
        else
          let rest := pushFileGo env size remote (attempt + 1) fuel
          ⟨rest.result, rest.sleeps, rest.progress, 1 + rest.attemptsMade⟩ := rfl

theorem pushFileGo_pos (env : Nat → PushAttemptEnv) (size : Nat) (remote : String)
    (fuel attempt : Nat) (hf : 0 < fuel) :
    1 ≤ (pushFileGo env size remote attempt fuel).attemptsMade := by
  cases fuel with
  | zero => omega
  | succ n =>
    rw [pushFileGo_succ]
    rcases hc : classifyAttempt (env attempt) with s | _ | _ <;> simp [hc]
    split <;> simp

theorem pushFileGo_attempts_le (env : Nat → PushAttemptEnv) (size : Nat)
    (remote : String) :
    ∀ fuel attempt, (pushFileGo env size remote attempt fuel).attemptsMade ≤ fuel := by
  intro fuel
  induction fuel with
  | zero => intro attempt; rw [pushFileGo_zero]
  | succ n ih =>
    intro attempt
    rw [pushFileGo_succ]
    rcases hc : classifyAttempt (env attempt) with s | _ | _
    · simp only
      split
      · simp
      · simp only
        have := ih (attempt + 1)
        omega
    · simp only
      have := ih (attempt + 1)
      omega
    · simp


theorem pushFileGo_exhausted_attempts (env : Nat → PushAttemptEnv) (size : Nat)
    (remote : String) :
    ∀ fuel attempt, (pushFileGo env size remote attempt fuel).result = .exhausted →
      (pushFileGo env size remote attempt fuel).attemptsMade = fuel := by
  intro fuel
  induction fuel with
  | zero => intro attempt _; rw [pushFileGo_zero]
  | succ n ih =>
    intro attempt
    rw [pushFileGo_succ]
    rcases hc : classifyAttempt (env attempt) with s | _ | _
    · simp only
      split
      · intro h; exact absurd h (by simp)
      · intro h
        simp only at h ⊢
        have := ih (attempt + 1) h
        omega
    · intro h
      simp only at h ⊢
      have := ih (attempt + 1) h
      omega
    · intro h; exact absurd h (by simp)

theorem pushFileGo_noTimeout (env : Nat → PushAttemptEnv) (size : Nat)
    (remote : String) :
    ∀ fuel attempt,
      (∀ i, attempt ≤ i → i < attempt + fuel → attemptHitsTimeout (env i) = false) →
      (pushFileGo env size remote attempt fuel).result ≠ .deviceError := by
  intro fuel
  induction fuel with
  | zero => intro attempt _; rw [pushFileGo_zero]; simp
  | succ n ih =>
    intro attempt h
    rw [pushFileGo_succ]
    rcases hc : classifyAttempt (env attempt) with s | _ | _
    · simp only
      split
      · simp
      · simp only
        exact ih (attempt + 1) fun i h1 h2 => h i (by omega) (by omega)
    · simp only
      exact ih (attempt + 1) fun i h1 h2 => h i (by omega) (by omega)
    · have := h attempt (Nat.le_refl attempt) (by omega)
      rw [attemptHitsTimeout, hc] at this
      simp at this

theorem pushFileGo_sleeps (env : Nat → PushAttemptEnv) (size : Nat)
    (remote : String) :
    ∀ fuel attempt, attempt + fuel = maxRetries →
      (pushFileGo env size remote attempt fuel).sleeps =
        (List.range ((pushFileGo env size remote attempt fuel).attemptsMade - 1)).countP
          (fun i => attemptIsProcError (env (attempt + i))) := by
  intro fuel
  induction fuel with
  | zero => intro attempt _; rw [pushFileGo_zero]; simp
  | succ n ih =>
    intro attempt hsum
    rw [pushFileGo_succ]
    rcases hc : classifyAttempt (env attempt) with s | _ | _
    · simp only
      split
      · simp
      · simp only
        have hrec := ih (attempt + 1) (by omega)
        set rest := pushFileGo env size remote (attempt + 1) n with hrest
        rcases Nat.eq_zero_or_pos rest.attemptsMade with ham | ham
        · have hn : n = 0 := by
            have := pushFileGo_pos env size remote n (attempt + 1)
            by_contra hne
            have := this (by omega)
            rw [← hrest] at this
            omega
          subst hn
          rw [hrest, pushFileGo_zero]
          simp
        · rw [show 1 + rest.attemptsMade - 1 = (rest.attemptsMade - 1) + 1 by omega,
            List.range_succ_eq_map, List.countP_cons, List.countP_map]
          have hfalse : attemptIsProcError (env (attempt + 0)) = false := by
            rw [Nat.add_zero, attemptIsProcError, hc]
          rw [hfalse, if_neg (by simp), Nat.add_zero, hrec]
          congr 1
          funext i
          simp only [Function.comp]
          congr 2
          omega
    · simp only
      have hrec := ih (attempt + 1) (by omega)
      set rest := pushFileGo env size remote (attempt + 1) n with hrest
      rcases Nat.eq_zero_or_pos rest.attemptsMade with ham | ham
      · have hn : n = 0 := by
          have := pushFileGo_pos env size remote n (attempt + 1)
          by_contra hne
          have := this (by omega)
          rw [← hrest] at this
          omega
        subst hn
        have hatt : attempt = maxRetries - 1 := by
          rw [maxRetries] at hsum ⊢
          omega
        rw [hrest, pushFileGo_zero]
        simp only
        rw [if_neg (by omega)]
        simp
      · have hatt : attempt < maxRetries - 1 := by
          have hn : 1 ≤ n := by
            by_contra hne
            have : n = 0 := by omega
            subst this
            rw [hrest, pushFileGo_zero] at ham
            simp at ham
          rw [maxRetries] at hsum ⊢
          omega
        rw [if_pos hatt]
        rw [show 1 + rest.attemptsMade - 1 = (rest.attemptsMade - 1) + 1 by omega,
          List.range_succ_eq_map, List.countP_cons, List.countP_map]
        have htrue : attemptIsProcError (env (attempt + 0)) = true := by
          rw [Nat.add_zero, attemptIsProcError, hc]
        rw [htrue, if_pos rfl, hrec]
        have hshift :
            ((fun i => attemptIsProcError (env (attempt + i))) ∘ Nat.succ) =
              fun i => attemptIsProcError (env (attempt + 1 + i)) := by
          funext i
          simp only [Function.comp]
          congr 2
          omega
        rw [hshift]
        omega
    · simp

theorem classifyAttempt_okRun_iff (e : PushAttemptEnv) (s : String) :
    classifyAttempt e = .okRun s ↔
      (∃ a b, e.mkdirOutcome = .ok a b) ∧ ∃ c, e.pushOutcome = .ok c s := by
  rcases e with ⟨mo, po⟩
  cases mo <;> cases po <;> simp [classifyAttempt]

theorem classify_procError_notSuccess (e : PushAttemptEnv)
    (h : classifyAttempt e = .procError) :
    ¬((∃ a b, e.mkdirOutcome = AdbOutcome.ok a b) ∧
      pushAttemptRecordsSuccess e.pushOutcome = true) := by
  rcases e with ⟨mo, po⟩
  cases mo with
  | ok a b =>
    cases po with
    | ok c d => simp [classifyAttempt] at h
    | calledProcessError c d => simp [pushAttemptRecordsSuccess]
    | timedOut => simp [classifyAttempt] at h
  | calledProcessError a b => simp
  | timedOut => simp [classifyAttempt] at h

theorem classify_timedOut_notSuccess (e : PushAttemptEnv)
    (h : classifyAttempt e = .timedOut) :
    ¬((∃ a b, e.mkdirOutcome = AdbOutcome.ok a b) ∧
      pushAttemptRecordsSuccess e.pushOutcome = true) := by
  rcases e with ⟨mo, po⟩
  cases mo with
  | ok a b =>
    cases po with
    | ok c d => simp [classifyAttempt] at h
    | calledProcessError c d => simp [classifyAttempt] at h
    | timedOut => simp [pushAttemptRecordsSuccess]
  | calledProcessError a b => simp [classifyAttempt] at h
  | timedOut => simp

/-! ### Helper lemmas about batching -/

theorem toBatchesGo_join (b : Nat) (hb : 0 < b) :
    ∀ (fuel : Nat) (l : List α), l.length ≤ fuel → (toBatchesGo b fuel l).flatten = l := by
  intro fuel
  induction fuel with
  | zero =>
    intro l hl
    have : l = [] := List.eq_nil_of_length_eq_zero (by omega)
    subst this
    rfl
  | succ n ih =>
    intro l hl
    cases l with
    | nil => rfl
    | cons x xs =>
      show (x :: xs).take b ++ (toBatchesGo b n ((x :: xs).drop b)).flatten = x :: xs
      rw [ih ((x :: xs).drop b) (by rw [List.length_drop]; simp at hl ⊢; omega)]
      exact List.take_append_drop b (x :: xs)

theorem toBatches_join (b : Nat) (hb : 0 < b) (l : List α) :
    (toBatches b l).flatten = l :=
  toBatchesGo_join b hb l.length l (Nat.le_refl _)

theorem toBatchesGo_length (b : Nat) (hb : 0 < b) :
    ∀ (fuel : Nat) (l : List α), l.length ≤ fuel →
      (toBatchesGo b fuel l).length = (l.length + b - 1) / b := by
  intro fuel
  induction fuel with
  | zero =>
    intro l hl
    have : l = [] := List.eq_nil_of_length_eq_zero (by omega)
    subst this
    simp [toBatchesGo, Nat.div_eq_of_lt (by omega : b - 1 < b)]
  | succ n ih =>
    intro l hl
    cases l with
    | nil => simp [toBatchesGo, Nat.div_eq_of_lt (by omega : b - 1 < b)]
    | cons x xs =>
      show ((x :: xs).take b :: toBatchesGo b n ((x :: xs).drop b)).length =
        ((x :: xs).length + b - 1) / b
      rw [List.length_cons, ih ((x :: xs).drop b)
        (by rw [List.length_drop]; simp at hl ⊢; omega)]
      rw [List.length_drop]
      have hlen : 1 ≤ (x :: xs).length := by simp
      set m := (x :: xs).length with hm
      have hright : (m + b - 1) / b = (m - 1) / b + 1 := by
        rw [show m + b - 1 = (m - 1) + b by omega]
        exact Nat.add_div_right (m - 1) hb
      rcases Nat.lt_or_ge m b with hcase | hcase
      · have e1 : (b - 1) / b = 0 := Nat.div_eq_of_lt (by omega)
        have e2 : (m - 1) / b = 0 := Nat.div_eq_of_lt (by omega)
        rw [show m - b = 0 by omega]
        simp only [Nat.zero_add, hright, e1, e2]
      · rw [show m - b + b - 1 = m - 1 by omega, hright]

theorem toBatches_length (b : Nat) (hb : 0 < b) (l : List α) :
    (toBatches b l).length = (l.length + b - 1) / b :=
  toBatchesGo_length b hb l.length l (Nat.le_refl _)

theorem toBatchesGo_mem_subset (b : Nat) :
    ∀ (fuel : Nat) (l : List α) (c : List α), c ∈ toBatchesGo b fuel l →
      ∀ p, p ∈ c → p ∈ l := by
  intro fuel
  induction fuel with
  | zero => intro l c hc; exact absurd hc (by simp [toBatchesGo])
  | succ n ih =>
    intro l c hc p hp
    cases l with
    | nil => exact absurd hc (by simp [toBatchesGo])
    | cons x xs =>
      rcases List.mem_cons.mp hc with hhead | htail
      · subst hhead
        exact List.take_subset b (x :: xs) hp
      · exact List.drop_subset b (x :: xs) (ih ((x :: xs).drop b) c htail p hp)

theorem batchReindexGo_noTimeout (bEnv : Nat → AdbOutcome) :
    ∀ (chunks : List (List String)) (k : Nat),
      (∀ i, i < chunks.length → bEnv (k + i) ≠ .timedOut) →
      batchReindexGo bEnv k chunks = ⟨chunks.map mkPathsArg, chunks, false⟩ := by
  intro chunks
  induction chunks with
  | nil => intro k _; rfl
  | cons batch rest ih =>
    intro k h
    have h0 : bEnv k ≠ .timedOut := by
      have := h 0 (by simp)
      rwa [Nat.add_zero] at this
    have hrec := ih (k + 1) fun i hi => by
      have := h (i + 1) (by simp; omega)
      rwa [show k + (i + 1) = k + 1 + i by omega] at this
    cases hk : bEnv k with
    | ok s e =>
      rw [batchReindexGo, hk]
      simp only
      rw [hrec]
      simp
    | calledProcessError s e =>
      rw [batchReindexGo, hk]
      simp only
      rw [hrec]
      simp
    | timedOut => exact absurd hk h0

theorem batchReindexGo_attempted_mem (bEnv : Nat → AdbOutcome) :
    ∀ (chunks : List (List String)) (k : Nat) (c : List String),
      c ∈ (batchReindexGo bEnv k chunks).batchesAttempted → c ∈ chunks := by
  intro chunks
  induction chunks with
  | nil => intro k c hc; exact absurd hc (by simp [batchReindexGo])
  | cons batch rest ih =>
    intro k c hc
    cases hk : bEnv k with
    | ok s e =>
      rw [batchReindexGo, hk] at hc
      simp only at hc
      rcases List.mem_cons.mp hc with hhead | htail
      · exact hhead ▸ List.mem_cons_self _ _
      · exact List.mem_cons_of_mem _ (ih (k + 1) c htail)
    | calledProcessError s e =>
      rw [batchReindexGo, hk] at hc
      simp only at hc
      rcases List.mem_cons.mp hc with hhead | htail
      · exact hhead ▸ List.mem_cons_self _ _
      · exact List.mem_cons_of_mem _ (ih (k + 1) c htail)
    | timedOut =>
      rw [batchReindexGo, hk] at hc
      simp only at hc
      rcases List.mem_cons.mp hc with hhead | htail
      · exact hhead ▸ List.mem_cons_self _ _
      · exact absurd htail (by simp)

/-! ### Helper lemmas about the batch transfer loop -/

theorem pushLoop_mem_success (target : String) :
    ∀ (files : List FileSpec) (p : String), p ∈ (pushLoop target files).1 →
      ∃ f, f ∈ files ∧
        (pushFile f.env f.size (mkRemote target f)).result = .success p := by
  intro files
  induction files with
  | nil => intro p hp; exact absurd hp (by simp [pushLoop])
  | cons f rest ih =>
    intro p hp
    rcases hr : (pushFile f.env f.size (mkRemote target f)).result with q | _ | _
    · rw [pushLoop, hr] at hp
      simp only at hp
      rcases List.mem_cons.mp hp with hhead | htail
      · exact ⟨f, List.mem_cons_self _ _, by rw [hr, hhead]⟩
      · rcases ih p htail with ⟨g, hg, hres⟩
        exact ⟨g, List.mem_cons_of_mem _ hg, hres⟩
    · rw [pushLoop, hr] at hp
      simp only at hp
      rcases ih p hp with ⟨g, hg, hres⟩
      exact ⟨g, List.mem_cons_of_mem _ hg, hres⟩
    · rw [pushLoop, hr] at hp
      exact absurd hp (by simp)

theorem pushLoop_noTimeout (target : String) :
    ∀ files : List FileSpec,
      (∀ f, f ∈ files → ∀ i, i < maxRetries → attemptHitsTimeout (f.env i) = false) →
      (pushLoop target files).2.2 = false ∧
        (pushLoop target files).1 = files.filterMap (fun f =>
          match (pushFile f.env f.size (mkRemote target f)).result with
          | .success p => some p
          | _ => none) := by
  intro files
  induction files with
  | nil => intro _; simp [pushLoop]
  | cons f rest ih =>
    intro h
    have hne : (pushFile f.env f.size (mkRemote target f)).result ≠ .deviceError := by
      apply pushFileGo_noTimeout
      intro i h1 h2
      exact h f (List.mem_cons_self _ _) i (by omega)
    have hrec := ih fun g hg => h g (List.mem_cons_of_mem _ hg)
    rcases hr : (pushFile f.env f.size (mkRemote target f)).result with q | _ | _
    · rw [pushLoop, hr]
      simp only [List.filterMap_cons, hr]
      exact ⟨hrec.1, by rw [hrec.2]⟩
    · rw [pushLoop, hr]
      simp only [List.filterMap_cons, hr]
      exact ⟨hrec.1, by rw [hrec.2]⟩
    · exact absurd hr hne

theorem push_files_transferred (target : String) (files : List FileSpec)
    (bEnv : Nat → AdbOutcome) :
    (push_files target files bEnv).transferred = (pushLoop target files).1 := by
  simp only [push_files]
  split
  · rfl
  · split
    · rfl
    · split <;> rfl

theorem push_files_batches_sub (target : String) (files : List FileSpec)
    (bEnv : Nat → AdbOutcome) :
    ∀ c, c ∈ (push_files target files bEnv).broadcastRun.batchesAttempted →
      c ∈ toBatches defaultBatchSize (pushLoop target files).1 := by
  simp only [push_files]
  split
  · intro c hc; exact absurd hc (by simp [emptyBroadcastRun])
  · split
    · intro c hc; exact absurd hc (by simp [emptyBroadcastRun])
    · split
      · intro c hc
        exact batchReindexGo_attempted_mem bEnv _ 0 c hc
      · intro c hc
        exact batchReindexGo_attempted_mem bEnv _ 0 c hc

/-! ### Helper lemmas about the candidate-set computation -/

theorem timeFilter_iff (lastSync : Option Int) (m : Int) :
    timeFilter lastSync m = true ↔
      lastSync = none ∨ ∃ t, lastSync = some t ∧ t < m := by
  cases lastSync <;> simp [timeFilter]

theorem calculate_metadata_mem (convertHeic : Bool) (lastSync : Option Int) :
    ∀ (files : List SrcFile) (p : String),
      p ∈ (calculate_metadata convertHeic lastSync files).2.2 ↔
        ∃ f, f ∈ files ∧ ∃ m sz, effectiveFile convertHeic f = some (p, m, sz) ∧
          0 < sz ∧ (lastSync = none ∨ ∃ t, lastSync = some t ∧ t < m) := by
  intro files
  induction files with
  | nil => intro p; simp [calculate_metadata]
  | cons f rest ih =>
    intro p
    rcases he : effectiveFile convertHeic f with _ | ⟨q, m0, sz0⟩
    · rw [calculate_metadata, he]
      simp only
      rw [ih]
      constructor
      · rintro ⟨g, hg, hrest⟩
        exact ⟨g, List.mem_cons_of_mem _ hg, hrest⟩
      · rintro ⟨g, hg, m, sz, heff, hrest⟩
        rcases List.mem_cons.mp hg with hgf | hgr
        · subst hgf
          rw [he] at heff
          exact absurd heff (by simp)
        · exact ⟨g, hgr, m, sz, heff, hrest⟩
    · rw [calculate_metadata, he]
      simp only
      by_cases htf : timeFilter lastSync m0 = true
      · by_cases hsz : 0 < sz0
        · rw [if_pos htf, if_pos hsz]
          constructor
          · intro hp
            rcases List.mem_cons.mp hp with hpq | htail
            · subst hpq
              exact ⟨f, List.mem_cons_self _ _, m0, sz0, he, hsz,
                (timeFilter_iff lastSync m0).mp htf⟩
            · rcases (ih p).mp htail with ⟨g, hg, hrest⟩
              exact ⟨g, List.mem_cons_of_mem _ hg, hrest⟩
          · rintro ⟨g, hg, m, sz, heff, hszg, htg⟩
            rcases List.mem_cons.mp hg with hgf | hgr
            · subst hgf
              rw [he] at heff
              have : q = p ∧ m0 = m ∧ sz0 = sz := by
                simpa using heff
              exact List.mem_cons.mpr (Or.inl this.1.symm)
            · exact List.mem_cons.mpr
                (Or.inr ((ih p).mpr ⟨g, hgr, m, sz, heff, hszg, htg⟩))
        · rw [if_pos htf, if_neg hsz]
          rw [ih]
          constructor
          · rintro ⟨g, hg, hrest⟩
            exact ⟨g, List.mem_cons_of_mem _ hg, hrest⟩
          · rintro ⟨g, hg, m, sz, heff, hszg, htg⟩
            rcases List.mem_cons.mp hg with hgf | hgr
            · subst hgf
              rw [he] at heff
              have : q = p ∧ m0 = m ∧ sz0 = sz := by
                simpa using heff
              exact absurd (this.2.2 ▸ hszg) hsz
            · exact ⟨g, hgr, m, sz, heff, hszg, htg⟩
      · rw [if_neg htf]
        rw [ih]
        constructor
        · rintro ⟨g, hg, hrest⟩
          exact ⟨g, List.mem_cons_of_mem _ hg, hrest⟩
        · rintro ⟨g, hg, m, sz, heff, hszg, htg⟩
          rcases List.mem_cons.mp hg with hgf | hgr
          · subst hgf
            rw [he] at heff
            have heq : q = p ∧ m0 = m ∧ sz0 = sz := by
              simpa using heff
            have : timeFilter lastSync m0 = true := by
              rw [timeFilter_iff]
              exact heq.2.1 ▸ htg
            exact absurd this htf
          · exact ⟨g, hgr, m, sz, heff, hszg, htg⟩

theorem calculate_metadata_entries (convertHeic : Bool) (lastSync : Option Int) :
    ∀ files : List SrcFile,
      (calculate_metadata convertHeic lastSync files).1 =
          (includedEntries convertHeic lastSync files).length ∧
        (calculate_metadata convertHeic lastSync files).2.1 =
          ((includedEntries convertHeic lastSync files).map (fun e => e.2.2)).sum ∧
        (calculate_metadata convertHeic lastSync files).2.2 =
          (includedEntries convertHeic lastSync files).map (fun e => e.1) := by
  intro files
  induction files with
  | nil => simp [calculate_metadata, includedEntries]
  | cons f rest ih =>
    simp only [includedEntries] at ih ⊢
    rcases he : effectiveFile convertHeic f with _ | ⟨q, m0, sz0⟩
    · rw [calculate_metadata, he]
      simp only [List.filterMap_cons, he]
      exact ih
    · rw [calculate_metadata, he]
      simp only [List.filterMap_cons, he]
      by_cases htf : timeFilter lastSync m0 = true
      · by_cases hsz : 0 < sz0
        · rw [if_pos htf, if_pos hsz]
          have hcond : (timeFilter lastSync m0 && decide (0 < sz0)) = true := by
            rw [htf, decide_eq_true hsz]
            rfl
          rw [hcond]
          simp only [if_true, List.length_cons, List.map_cons, List.sum_cons]
          refine ⟨by rw [ih.1], by rw [ih.2.1]; omega, by rw [ih.2.2]⟩
        · rw [if_pos htf, if_neg hsz]
          have hcond : (timeFilter lastSync m0 && decide (0 < sz0)) = false := by
            simp [hsz]
          rw [hcond]
          simpa using ih
      · rw [if_neg htf]
        have hcond : (timeFilter lastSync m0 && decide (0 < sz0)) = false := by
          simp [Bool.eq_false_iff.mpr htf]
        rw [hcond]
        simpa using ih

theorem includedEntries_pos (convertHeic : Bool) (lastSync : Option Int)
    (files : List SrcFile) :
    ∀ e, e ∈ includedEntries convertHeic lastSync files → 0 < e.2.2 := by
  intro e he
  rcases List.mem_filterMap.mp he with ⟨f, _, hsome⟩
  rcases heff : effectiveFile convertHeic f with _ | ⟨q, m0, sz0⟩
  · rw [heff] at hsome
    exact absurd hsome (by simp)
  · rw [heff] at hsome
    simp only at hsome
    by_cases hcond : (timeFilter lastSync m0 && decide (0 < sz0)) = true
    · rw [if_pos hcond] at hsome
      have hsz : 0 < sz0 := by
        have := (Bool.and_eq_true _ _).mp hcond
        exact of_decide_eq_true this.2
      have : (q, m0, sz0) = e := by simpa using hsome
      rw [← this]
      exact hsz
    · rw [if_neg hcond] at hsome
      exact absurd hsome (by simp)

/-! ### Helper lemmas about the class-based processor -/

theorem mfp_entries (convertHeic syncAll : Bool) (lastSync : Option Int) :
    ∀ entries : List MFEntry,
      (mfpCalculateMetadata convertHeic syncAll lastSync entries).1 =
          (entries.filterMap (processOne convertHeic syncAll lastSync)).length ∧
        (mfpCalculateMetadata convertHeic syncAll lastSync entries).2.1 =
          ((entries.filterMap (processOne convertHeic syncAll lastSync)).map
            (fun m => m.size)).sum ∧
        (mfpCalculateMetadata convertHeic syncAll lastSync entries).2.2 =
          (entries.filterMap (processOne convertHeic syncAll lastSync)).map
            (fun m => m.path) := by
  intro entries
  induction entries with
  | nil => simp [mfpCalculateMetadata]
  | cons e rest ih =>
    rcases hp : processOne convertHeic syncAll lastSync e with _ | m
    · rw [mfpCalculateMetadata, hp]
      simp only [List.filterMap_cons, hp]
      exact ih
    · rw [mfpCalculateMetadata, hp]
      simp only [List.filterMap_cons, hp, List.length_cons, List.map_cons, List.sum_cons]
      refine ⟨by rw [ih.1], by rw [ih.2.1]; omega, by rw [ih.2.2]⟩

theorem processOne_validated (convertHeic syncAll : Bool) (lastSync : Option Int)
    (e : MFEntry) (m : MFMeta) :
    processOne convertHeic syncAll lastSync e = some m → validate_file_size m = true := by
  intro h
  rw [processOne] at h
  rcases hp : (if convertHeic && (e.suffix == heicExtStr || e.suffix == heicExtUpperStr)
      then e.convMeta else e.statMeta) with _ | m0
  · rw [hp] at h
    exact absurd h (by simp)
  · rw [hp] at h
    simp only at h
    by_cases hs : should_sync_file syncAll lastSync m0.mtime = true
    · rw [if_pos hs] at h
      by_cases hv : validate_file_size m0 = true
      · rw [if_pos hv] at h
        have : m0 = m := by simpa using h
        exact this ▸ hv
      · rw [if_neg hv] at h
        exact absurd h (by simp)
    · rw [if_neg hs] at h
      exact absurd h (by simp)

theorem validate_pos (m : MFMeta) : validate_file_size m = true → 0 < m.size := by
  rw [validate_file_size]
  intro h
  have := (Bool.and_eq_true _ _).mp h
  have h1 := this.1
  simp only [Bool.not_eq_true', beq_eq_false_iff_ne] at h1
  omega

/-! ### Helper lemmas about device listing and selection -/

theorem parseDeviceLines_ready :
    ∀ (lines : List String) (devs : List DeviceInfoM),
      parseDeviceLines lines = .ok devs →
      devs = lines.filterMap readyLineDevice ∧
        ∀ d, d ∈ devs → d.status = DeviceStatusM.device := by
  intro lines
  induction lines with
  | nil =>
    intro devs h
    have : devs = [] := by
      rw [parseDeviceLines] at h
      simpa using h.symm
    subst this
    simp
  | cons line rest ih =>
    intro devs h
    rw [parseDeviceLines] at h
    by_cases hb : strIsBlank line = true
    · rw [if_pos hb] at h
      have := ih devs h
      rw [List.filterMap_cons, readyLineDevice, if_pos hb]
      exact this
    · rw [if_neg hb] at h
      rw [List.filterMap_cons, readyLineDevice, if_neg hb]
      rcases hsw : strSplitWs line with _ | ⟨idStr, _ | ⟨statusStr, tail⟩⟩
      · rw [hsw] at h
        simp only at h
        simpa using ih devs h
      · rw [hsw] at h
        simp only at h
        simpa using ih devs h
      · rw [hsw] at h
        simp only at h ⊢
        rcases hst : statusFromName (strToUpper statusStr) with _ | st
        · rw [hst] at h
          simp at h
        · rw [hst] at h
          simp only at h ⊢
          rcases hrec : parseDeviceLines rest with e | ds
          · rw [hrec] at h
            simp at h
          · rw [hrec] at h
            simp only at h
            have hih := ih ds hrec
            by_cases hdd : st = DeviceStatusM.device
            · rw [if_pos hdd] at h ⊢
              have hdevs : devs = ⟨idStr, st, none, none⟩ :: ds := by
                simpa using h.symm
              subst hdevs
              refine ⟨by simp [hih.1], ?_⟩
              intro d hd
              rcases List.mem_cons.mp hd with hd1 | hd2
              · rw [hd1, hdd]
              · exact hih.2 d hd2
            · rw [if_neg hdd] at h ⊢
              have hdevs : devs = ds := by simpa using h.symm
              subst hdevs
              simpa using hih

theorem getConnectedDevices_ready (listOutcome : AdbOutcome)
    (devs : List DeviceInfoM) (h : getConnectedDevicesM listOutcome = .ok devs) :
    ∀ d, d ∈ devs → d.status = DeviceStatusM.device := by
  cases listOutcome with
  | ok s e =>
    rw [getConnectedDevicesM] at h
    exact (parseDeviceLines_ready _ devs h).2
  | calledProcessError s e => simp [getConnectedDevicesM] at h
  | timedOut => simp [getConnectedDevicesM] at h

theorem select_device_noDevices_iff (listOutcome : AdbOutcome)
    (rawChoice : Option Int) (modelOutcome manuOutcome : AdbOutcome) :
    select_device listOutcome rawChoice modelOutcome manuOutcome =
        SelectOutcome.noDevices ↔
      getConnectedDevicesM listOutcome = .ok [] := by
  rcases hg : getConnectedDevicesM listOutcome with e | devs
  · rw [select_device, hg]
    simp
  · cases devs with
    | nil => rw [select_device, hg]; simp
    | cons d rest =>
      cases rest with
      | nil =>
        rw [select_device, hg]
        rcases hf : fetchDeviceDetailsM d modelOutcome manuOutcome with e | d2 <;>
          simp [hf]
      | cons d2 rest2 =>
        rw [select_device, hg]
        rcases hp : promptForDeviceChoiceM (d :: d2 :: rest2) rawChoice with _ | dd
        · simp [hp]
        · rcases hf : fetchDeviceDetailsM dd modelOutcome manuOutcome with e | d3 <;>
            simp [hp, hf]

theorem fetchDeviceDetails_noTimeout (d : DeviceInfoM)
    (modelOutcome manuOutcome : AdbOutcome)
    (h1 : modelOutcome ≠ .timedOut) (h2 : manuOutcome ≠ .timedOut) :
    ∃ d2, fetchDeviceDetailsM d modelOutcome manuOutcome = .ok d2 ∧
      d2.id = d.id ∧ d2.status = d.status := by
  cases modelOutcome with
  | ok s e =>
    cases manuOutcome with
    | ok s2 e2 => exact ⟨_, rfl, rfl, rfl⟩
    | calledProcessError s2 e2 => exact ⟨_, rfl, rfl, rfl⟩
    | timedOut => exact absurd rfl h2
  | calledProcessError s e => exact ⟨d, rfl, rfl, rfl⟩
  | timedOut => exact absurd rfl h1

theorem select_device_enrich_nonfatal (listOutcome : AdbOutcome)
    (rawChoice : Option Int) (modelOutcome manuOutcome : AdbOutcome)
    (devs : List DeviceInfoM) (d : DeviceInfoM)
    (h1 : modelOutcome ≠ .timedOut) (h2 : manuOutcome ≠ .timedOut)
    (hg : getConnectedDevicesM listOutcome = .ok devs)
    (hres : devs = [d] ∨
      (2 ≤ devs.length ∧ promptForDeviceChoiceM devs rawChoice = some d)) :
    ∃ d2, select_device listOutcome rawChoice modelOutcome manuOutcome =
        SelectOutcome.selected d2 ∧ d2.id = d.id ∧ d2.status = d.status := by
  rcases fetchDeviceDetails_noTimeout d modelOutcome manuOutcome h1 h2 with
    ⟨d2, hf, hid, hst⟩
  refine ⟨d2, ?_, hid, hst⟩
  rcases hres with hsingle | ⟨hlen, hp⟩
  · subst hsingle
    rw [select_device, hg]
    simp [hf]
  · cases devs with
    | nil => simp at hlen
    | cons a tail =>
      cases tail with
      | nil => simp at hlen
      | cons b tail2 =>
        rw [select_device, hg]
        simp [hp, hf]

/-! ### Helper lemma about the legacy flow -/

theorem adb_push_files_success (devices : List String) (files : List LegacyFile)
    (tree : List String) (answer : String) (hdev : devices ≠ [])
    (hall : files.all (fun f => f.pushExitZero) = true) :
    (adb_push_files devices files tree answer).ran = true ∧
      (adb_push_files devices files tree answer).prompted = true ∧
      (adb_push_files devices files tree answer).timestampUpdated = true ∧
      (normalizeAnswer answer ≠ nStr →
        (adb_push_files devices files tree answer).deletedFiles = tree) ∧
      (normalizeAnswer answer = nStr →
        (adb_push_files devices files tree answer).deletedFiles = []) := by
  have hde : devices.isEmpty = false := by
    cases devices with
    | nil => exact absurd rfl hdev
    | cons a l => rfl
  rw [adb_push_files]
  simp only [hde, Bool.false_eq_true, if_false, hall, if_true]
  by_cases hans : normalizeAnswer answer = nStr
  · rw [if_neg (by simpa using hans)]
    refine ⟨rfl, rfl, rfl, fun hc => absurd hans hc, fun _ => rfl⟩
  · rw [if_pos hans]
    exact ⟨rfl, rfl, rfl, fun _ => rfl, fun hc => absurd hc hans⟩

/-! ### Claim theorems -/

/-- Claim C1 (code bug, evaluated at the failing input): the spec requires
the last-sync timestamp to be written iff the batch had zero failed items,
but `ADBDeviceManager.push_files` (src/adb_manager.py lines 232-239) updates
the timestamp whenever `transferred_files` is non-empty.  In a two-file
batch where the first file's push succeeds (exit 0, marker in stderr) and
the second file fails all three attempts with process errors, the code
still sends the reindex broadcast, updates the timestamp and returns
`True`, although the failed count is 1. -/
theorem C1_commit_despite_failed_item :
    (push_files targetStr c1Files okBEnv).timestampUpdated = true ∧
    (push_files targetStr c1Files okBEnv).retval = some true ∧
    (push_files targetStr c1Files okBEnv).transferred = [aRemoteStr] ∧
    (pushFile fileBadSpec.env fileBadSpec.size (mkRemote targetStr fileBadSpec)).result =
      RunResult.exhausted := by decide

/-- Claim C2 (amended): a single-file push is recorded as succeeded iff the
process exit status is zero AND the transfer-summary marker `"bytes in"`
appears in the diagnostic (stderr) stream — not independently of the exit
code: `check=True` raises on a non-zero exit before the marker is ever
inspected.  The first conjunct characterizes the per-invocation judgment
(`pushAttemptRecordsSuccess`); the second ties it to the retry loop: the
loop succeeds on its first attempt exactly when the mkdir call exits zero
and the push call is recorded as succeeded. -/
theorem C2_success_needs_zero_exit_and_marker :
    (∀ o : AdbOutcome, pushAttemptRecordsSuccess o = true ↔
      ∃ s e, o = AdbOutcome.ok s e ∧ containsMarker e = true) ∧
    (∀ (env : Nat → PushAttemptEnv) (size : Nat) (remote : String),
      ((pushFile env size remote).result = RunResult.success remote ∧
        (pushFile env size remote).attemptsMade = 1) ↔
      ((∃ a b, (env 0).mkdirOutcome = AdbOutcome.ok a b) ∧
        pushAttemptRecordsSuccess ((env 0).pushOutcome) = true)) := by
  constructor
  · intro o
    cases o with
    | ok a b =>
      simp only [pushAttemptRecordsSuccess]
      constructor
      · intro h
        exact ⟨a, b, rfl, h⟩
      · rintro ⟨s, e, heq, hm⟩
        obtain ⟨h1, h2⟩ : a = s ∧ b = e := by simpa using heq
        rw [h2]
        exact hm
    | calledProcessError a b => simp [pushAttemptRecordsSuccess]
    | timedOut => simp [pushAttemptRecordsSuccess]
  · intro env size remote
    rw [pushFile, show maxRetries = 2 + 1 from rfl, pushFileGo_succ]
    rcases hc : classifyAttempt (env 0) with s | _ | _
    · simp only
      by_cases hm : containsMarker s = true
      · rw [if_pos hm]
        simp only
        constructor
        · intro _
          rcases (classifyAttempt_okRun_iff (env 0) s).mp hc with ⟨hmk, c, hpush⟩
          refine ⟨hmk, ?_⟩
          rw [hpush]
          simpa [pushAttemptRecordsSuccess] using hm
        · intro _
          trivial
      · rw [if_neg hm]
        simp only
        constructor
        · rintro ⟨_, ham⟩
          have := pushFileGo_pos env size remote 2 (0 + 1) (by omega)
          omega
        · rintro ⟨_, hrs⟩
          rcases (classifyAttempt_okRun_iff (env 0) s).mp hc with ⟨_, c, hpush⟩
          rw [hpush] at hrs
          simp only [pushAttemptRecordsSuccess] at hrs
          exact absurd hrs hm
    · simp only
      constructor
      · rintro ⟨_, ham⟩
        have := pushFileGo_pos env size remote 2 (0 + 1) (by omega)
        omega
      · intro hrhs
        exact absurd hrhs (classify_procError_notSuccess (env 0) hc)
    · simp only
      constructor
      · rintro ⟨hres, _⟩
        exact absurd hres (by simp)
      · intro hrhs
        exact absurd hrhs (classify_timedOut_notSuccess (env 0) hc)

/-- Claim C2 counterexample: a push invocation whose stderr carries the
marker but whose exit status is non-zero (a `CalledProcessError`) is NOT
recorded as succeeded — `_push_file` retries and finally returns `None`,
refuting "independent of the process exit code". -/
theorem C2_marker_nonzero_exit_cex :
    containsMarker cexStderr = true ∧
    (pushFile markerButCpeEnv 7 remoteStr).result = RunResult.exhausted := by decide

/-- Claim C2 witness: the amended theorem applied at concrete outcomes —
zero exit with marker is recorded as success, and such a first attempt makes
the retry loop succeed immediately. -/
theorem C2_witness :
    pushAttemptRecordsSuccess (AdbOutcome.ok emptyStr okMarkerStderr) = true ∧
    (pushFile (fun _ => allOkAttempt) 500 remoteStr).result =
      RunResult.success remoteStr := by
  constructor
  · exact (C2_success_needs_zero_exit_and_marker.1 _).mpr
      ⟨emptyStr, okMarkerStderr, rfl, by decide⟩
  · exact ((C2_success_needs_zero_exit_and_marker.2 (fun _ => allOkAttempt) 500
      remoteStr).mpr ⟨⟨emptyStr, emptyStr, rfl⟩, by decide⟩).1

/-- Claim C3 counterexample: three marker-less zero-exit push attempts are
made back to back with NO sleep between them — the claimed fixed 1-second
backoff between consecutive attempts would give 2 seconds here, the code
sleeps 0 (the `time.sleep(1)` sits only in the `except
subprocess.CalledProcessError` handler). -/
theorem C3_no_backoff_cex :
    (pushFile noMarkerEnv 5 remoteStr).attemptsMade = 3 ∧
    (pushFile noMarkerEnv 5 remoteStr).result = RunResult.exhausted ∧
    (pushFile noMarkerEnv 5 remoteStr).sleeps = 0 := by decide

/-- Claim C3 (amended): each file is attempted at most 3 times; a file
recorded as failed used exactly 3 attempts; the 1-second backoff precedes a
retry exactly after attempts that failed with a process error (non-zero
exit), while marker-less zero-exit attempts are retried immediately; and —
as long as no bridge call times out (a timeout escapes the per-file handler
and aborts the whole batch) — the batch loop processes every file, a file
that exhausts its retries is simply left out of `transferred_files`, and the
loop continues with the next file. -/
theorem C3_retry_budget_and_continuation :
    (∀ (env : Nat → PushAttemptEnv) (size : Nat) (remote : String),
      (pushFile env size remote).attemptsMade ≤ maxRetries) ∧
    (∀ (env : Nat → PushAttemptEnv) (size : Nat) (remote : String),
      (pushFile env size remote).result = RunResult.exhausted →
        (pushFile env size remote).attemptsMade = maxRetries) ∧
    (∀ (env : Nat → PushAttemptEnv) (size : Nat) (remote : String),
      (pushFile env size remote).sleeps =
        (List.range ((pushFile env size remote).attemptsMade - 1)).countP
          (fun i => attemptIsProcError (env i))) ∧
    (∀ (target : String) (files : List FileSpec),
      (∀ f, f ∈ files → ∀ i, i < maxRetries → attemptHitsTimeout (f.env i) = false) →
      (pushLoop target files).2.2 = false ∧
        (pushLoop target files).1 = files.filterMap (fun f =>
          match (pushFile f.env f.size (mkRemote target f)).result with
          | RunResult.success p => some p
          | _ => none)) := by
  refine ⟨?_, ?_, ?_, ?_⟩
  · intro env size remote
    exact pushFileGo_attempts_le env size remote maxRetries 0
  · intro env size remote h
    exact pushFileGo_exhausted_attempts env size remote maxRetries 0 h
  · intro env size remote
    have h := pushFileGo_sleeps env size remote maxRetries 0 rfl
    simpa using h
  · exact fun target files h => pushLoop_noTimeout target files h

/-- Claim C3 witness: the spec's `c.jpg` scenario — two process-error
attempts then a marker-carrying success on attempt 3 — slept twice; and in
the two-file batch of C1 the failing file does not abort the loop: both
files are processed and the successful remote path is collected. -/
theorem C3_witness :
    (pushFile retryScenarioEnv 9 remoteStr).sleeps = 2 ∧
    (pushFile retryScenarioEnv 9 remoteStr).result = RunResult.success remoteStr ∧
    (pushLoop targetStr c1Files).2.2 = false ∧
    (pushLoop targetStr c1Files).1 = [aRemoteStr] := by
  refine ⟨?_, by decide, ?_, ?_⟩
  · have h := C3_retry_budget_and_continuation.2.2.1 retryScenarioEnv 9 remoteStr
    exact h.trans (by decide)
  · exact (C3_retry_budget_and_continuation.2.2.2 targetStr c1Files (by decide)).1
  · have h := (C3_retry_budget_and_continuation.2.2.2 targetStr c1Files (by decide)).2
    exact h.trans (by decide)

/-- Claim C4 counterexample: a zero-byte file whose modification time is
strictly after the persisted timestamp is NOT included in the candidate set
(`calculate_metadata` drops it in the `file_size > 0` check), refuting the
claimed "included iff `t > lastSyncEpochSeconds`". -/
theorem C4_zero_byte_breaks_iff_cex :
    (0 : Int) < bSrcFile.mtime ∧
    (calculate_metadata false (some 0) [bSrcFile]).2.2 = [] := by decide

/-- Claim C4 (amended): a path enters the candidate set iff it comes from a
source file that survives the conversion step (`effectiveFile`), has
positive size, and whose (post-conversion) modification time passes the
incremental filter — no prior timestamp, or `t > lastSyncEpochSeconds` with
STRICT inequality.  In the class-based processor, `_should_sync_file` is
exactly `sync_all or no-timestamp or mtime > lastSync` (strict), so with a
timestamp present and full-sync off a file is eligible iff `t < mtime`, and
with no timestamp (or full-sync mode) every file is eligible. -/
theorem C4_strict_incremental_filter :
    (∀ (convertHeic : Bool) (lastSync : Option Int) (files : List SrcFile) (p : String),
      p ∈ (calculate_metadata convertHeic lastSync files).2.2 ↔
        ∃ f, f ∈ files ∧ ∃ m sz, effectiveFile convertHeic f = some (p, m, sz) ∧
          0 < sz ∧ (lastSync = none ∨ ∃ t, lastSync = some t ∧ t < m)) ∧
    (∀ t m : Int, should_sync_file false (some t) m = decide (t < m)) ∧
    (∀ (syncAll : Bool) (m : Int), should_sync_file syncAll none m = true) ∧
    (∀ (lastSync : Option Int) (m : Int), should_sync_file true lastSync m = true) := by
  refine ⟨fun ch ls files p => calculate_metadata_mem ch ls files p, ?_, ?_, ?_⟩
  · intro t m
    rfl
  · intro sa m
    cases sa <;> rfl
  · intro ls m
    cases ls <;> rfl

/-- Claim C4 witness: in the spec's scenario (`a.jpg`, 500 bytes, modified
at 5 > lastSync 0) the amended characterization puts `a.jpg` in the
candidate set. -/
theorem C4_witness :
    aLocalStr ∈ (calculate_metadata false (some 0) scenarioFiles).2.2 :=
  (C4_strict_incremental_filter.1 false (some 0) scenarioFiles aLocalStr).mpr
    ⟨aSrcFile, by decide, 5, 500, by decide, by decide, Or.inr ⟨0, rfl, by decide⟩⟩

/-- Claim C5: in both candidate-set computations (src/main.py
`calculate_metadata` and `MediaFileProcessor.calculate_metadata`), the
candidate list consists exactly of the included entries, every included
entry has positive size (zero-byte files are never included), the reported
total is the sum of the included entries' sizes, and the reported count is
their number. -/
theorem C5_zero_byte_excluded_and_totals :
    (∀ (convertHeic : Bool) (lastSync : Option Int) (files : List SrcFile),
      (calculate_metadata convertHeic lastSync files).1 =
          (includedEntries convertHeic lastSync files).length ∧
        (calculate_metadata convertHeic lastSync files).2.1 =
          ((includedEntries convertHeic lastSync files).map (fun e => e.2.2)).sum ∧
        (calculate_metadata convertHeic lastSync files).2.2 =
          (includedEntries convertHeic lastSync files).map (fun e => e.1) ∧
        ∀ e, e ∈ includedEntries convertHeic lastSync files → 0 < e.2.2) ∧
    (∀ (convertHeic syncAll : Bool) (lastSync : Option Int) (entries : List MFEntry),
      (mfpCalculateMetadata convertHeic syncAll lastSync entries).2.1 =
          ((entries.filterMap (processOne convertHeic syncAll lastSync)).map
            (fun m => m.size)).sum ∧
        (mfpCalculateMetadata convertHeic syncAll lastSync entries).2.2 =
          (entries.filterMap (processOne convertHeic syncAll lastSync)).map
            (fun m => m.path) ∧
        ∀ m, m ∈ entries.filterMap (processOne convertHeic syncAll lastSync) →
          0 < m.size) := by
  constructor
  · intro ch ls files
    have h := calculate_metadata_entries ch ls files
    exact ⟨h.1, h.2.1, h.2.2, includedEntries_pos ch ls files⟩
  · intro ch sa ls entries
    have h := mfp_entries ch sa ls entries
    refine ⟨h.2.1, h.2.2, ?_⟩
    intro m hm
    rcases List.mem_filterMap.mp hm with ⟨e, _, hsome⟩
    exact validate_pos m (processOne_validated ch sa ls e m hsome)

/-- Claim C5 witness: the spec's scenario — `a.jpg` (500 B, mtime after
lastSync) and `b.jpg` (0 B) — yields the candidate set `{a.jpg}` with total
500 and count 1, and the included entry has positive size. -/
theorem C5_witness :
    (calculate_metadata false (some 0) scenarioFiles).2.2 = [aLocalStr] ∧
    (calculate_metadata false (some 0) scenarioFiles).2.1 = 500 ∧
    (calculate_metadata false (some 0) scenarioFiles).1 = 1 ∧
    0 < (500 : Nat) := by
  have h := C5_zero_byte_excluded_and_totals.1 false (some 0) scenarioFiles
  refine ⟨h.2.2.1.trans (by decide), h.2.1.trans (by decide), h.1.trans (by decide), ?_⟩
  have hp := h.2.2.2 (aLocalStr, 5, 500) (by decide)
  exact hp

/-- Claim C6 counterexample: with 11 succeeded paths (2 batches of batch
size 10), a bridge timeout on the first broadcast raises
`DeviceConnectionError`, which `_batch_reindex_broadcasts` does not catch
(it only catches `BroadcastError`): only 1 call is made instead of
`ceil(11/10) = 2`, and batch 2 is never attempted. -/
theorem C6_timeout_stops_batches_cex :
    elevenPaths.length = 11 ∧
    (elevenPaths.length + defaultBatchSize - 1) / defaultBatchSize = 2 ∧
    (batch_reindex_broadcasts timeoutBEnv elevenPaths defaultBatchSize).argsSent.length
      = 1 ∧
    (batch_reindex_broadcasts timeoutBEnv elevenPaths defaultBatchSize).aborted
      = true := by decide

/-- Claim C6 (amended): as long as no broadcast call times out, exactly
`ceil(N/B)` broadcast calls are issued for N paths at batch size B = 10,
each carrying its batch's paths space-joined as `file://` URIs in a single
argument (`mkPathsArg`), the batches partition the path list in order, and a
batch failing with a non-zero exit (`BroadcastError`, caught and logged)
does not prevent the following batches from being attempted; a bridge
timeout, however, aborts the remaining batches. -/
theorem C6_batch_count_and_independence :
    ∀ (filePaths : List String) (bEnv : Nat → AdbOutcome),
      (∀ k, k < (toBatches defaultBatchSize filePaths).length →
        bEnv k ≠ AdbOutcome.timedOut) →
      (batch_reindex_broadcasts bEnv filePaths defaultBatchSize).aborted = false ∧
      (batch_reindex_broadcasts bEnv filePaths defaultBatchSize).batchesAttempted =
        toBatches defaultBatchSize filePaths ∧
      (batch_reindex_broadcasts bEnv filePaths defaultBatchSize).argsSent =
        (toBatches defaultBatchSize filePaths).map mkPathsArg ∧
      (batch_reindex_broadcasts bEnv filePaths defaultBatchSize).argsSent.length =
        (filePaths.length + defaultBatchSize - 1) / defaultBatchSize ∧
      (toBatches defaultBatchSize filePaths).flatten = filePaths := by
  intro filePaths bEnv h
  have hb := batchReindexGo_noTimeout bEnv (toBatches defaultBatchSize filePaths) 0
    (fun i hi => by rw [Nat.zero_add]; exact h i hi)
  rw [batch_reindex_broadcasts, hb]
  refine ⟨rfl, rfl, rfl, ?_, toBatches_join defaultBatchSize (by decide) filePaths⟩
  simp only
  rw [List.length_map]
  exact toBatches_length defaultBatchSize (by decide) filePaths

/-- Claim C6 witness: 11 paths with all broadcasts exiting zero — 2 calls
are issued and the run is not aborted. -/
theorem C6_witness :
    (batch_reindex_broadcasts okBEnv elevenPaths defaultBatchSize).argsSent.length
        = 2 ∧
      (batch_reindex_broadcasts okBEnv elevenPaths defaultBatchSize).aborted
        = false := by
  have h := C6_batch_count_and_independence elevenPaths okBEnv (by decide)
  exact ⟨h.2.2.2.1.trans (by decide), h.1⟩

/-- Claim C7: every path handed to a reindex broadcast in a `push_files`
run belongs to `transferred_files`, i.e. its push was already confirmed
successful by the retry loop — no failed or unattempted transfer is ever
passed to the notifier. -/
theorem C7_broadcasts_only_confirmed :
    ∀ (target : String) (files : List FileSpec) (bEnv : Nat → AdbOutcome)
      (batch : List String) (p : String),
      batch ∈ (push_files target files bEnv).broadcastRun.batchesAttempted →
      p ∈ batch →
      p ∈ (push_files target files bEnv).transferred ∧
        ∃ f, f ∈ files ∧
          (pushFile f.env f.size (mkRemote target f)).result = RunResult.success p := by
  intro target files bEnv batch p hb hp
  have h1 := push_files_batches_sub target files bEnv batch hb
  have h2 : p ∈ (pushLoop target files).1 :=
    toBatchesGo_mem_subset defaultBatchSize ((pushLoop target files).1).length
      (pushLoop target files).1 batch h1 p hp
  refine ⟨?_, pushLoop_mem_success target files p h2⟩
  rw [push_files_transferred]
  exact h2

/-- Claim C7 witness: a run with one successfully pushed file — its single
broadcast batch contains exactly the confirmed remote path. -/
theorem C7_witness :
    aRemoteStr ∈ (push_files targetStr c7Files okBEnv).transferred ∧
    ∃ f, f ∈ c7Files ∧
      (pushFile f.env f.size (mkRemote targetStr f)).result =
        RunResult.success aRemoteStr :=
  C7_broadcasts_only_confirmed targetStr c7Files okBEnv [aRemoteStr] aRemoteStr
    (by decide) (by decide)

/-- Claim C8: device listing parses one record per line (the READY set is
exactly the per-line `readyLineDevice` results), keeps only devices whose
state is the authorized `device` state, and `select_device` fails with the
no-devices error exactly when the parsed READY set is empty. -/
theorem C8_ready_parse_and_no_devices :
    (∀ (lines : List String) (devs : List DeviceInfoM),
      parseDeviceLines lines = Except.ok devs →
        devs = lines.filterMap readyLineDevice ∧
          ∀ d, d ∈ devs → d.status = DeviceStatusM.device) ∧
    (∀ (listOutcome : AdbOutcome) (rawChoice : Option Int)
        (modelOutcome manuOutcome : AdbOutcome),
      select_device listOutcome rawChoice modelOutcome manuOutcome =
          SelectOutcome.noDevices ↔
        getConnectedDevicesM listOutcome = Except.ok []) :=
  ⟨parseDeviceLines_ready, select_device_noDevices_iff⟩

/-- Claim C8 witness: a listing with one authorized and one unauthorized
device parses to the single READY record, and a listing with no device
lines makes `select_device` fail with the no-devices error. -/
theorem C8_witness :
    abcDevice.status = DeviceStatusM.device ∧
    select_device (AdbOutcome.ok emptyListStr emptyStr) none
        (AdbOutcome.ok emptyStr emptyStr) (AdbOutcome.ok emptyStr emptyStr) =
      SelectOutcome.noDevices := by
  constructor
  · exact (C8_ready_parse_and_no_devices.1
      ((strSplitLines (strTrim deviceListStr)).drop 1) [abcDevice] (by rfl)).2
      abcDevice (by decide)
  · exact (C8_ready_parse_and_no_devices.2 (AdbOutcome.ok emptyListStr emptyStr) none
      (AdbOutcome.ok emptyStr emptyStr) (AdbOutcome.ok emptyStr emptyStr)).mpr (by rfl)

/-- Claim C9 counterexample: a bridge TIMEOUT during the model `getprop`
call is fatal — `DeviceConnectionError` escapes `_fetch_device_details`
(which catches only `CalledProcessError`), so `select_device` fails instead
of returning the device, refuting "failure of the enrichment is
non-fatal". -/
theorem C9_enrich_timeout_fatal_cex :
    select_device (AdbOutcome.ok deviceListStr emptyStr) none AdbOutcome.timedOut
        (AdbOutcome.ok emptyStr emptyStr) = SelectOutcome.enrichTimedOut ∧
    ¬∃ d, select_device (AdbOutcome.ok deviceListStr emptyStr) none AdbOutcome.timedOut
        (AdbOutcome.ok emptyStr emptyStr) = SelectOutcome.selected d := by
  refine ⟨by rfl, ?_⟩
  rintro ⟨d, h⟩
  rw [show select_device (AdbOutcome.ok deviceListStr emptyStr) none AdbOutcome.timedOut
      (AdbOutcome.ok emptyStr emptyStr) = SelectOutcome.enrichTimedOut from rfl] at h
  exact SelectOutcome.noConfusion h

/-- Claim C9 (amended): a `CalledProcessError` from either enrichment
`getprop` call is non-fatal — the first call failing leaves the device
unchanged (both display fields still missing), the second call failing
leaves the model set and the manufacturer missing — and, as long as neither
call TIMES OUT, enrichment returns a device with the same identity, and
device selection still returns the selected device; a bridge timeout during
enrichment, by contrast, makes selection fail. -/
theorem C9_cpe_enrichment_nonfatal :
    (∀ (d : DeviceInfoM) (s e : String) (manuOutcome : AdbOutcome),
      fetchDeviceDetailsM d (AdbOutcome.calledProcessError s e) manuOutcome =
        Except.ok d) ∧
    (∀ (d : DeviceInfoM) (a b s e : String),
      fetchDeviceDetailsM d (AdbOutcome.ok a b) (AdbOutcome.calledProcessError s e) =
        Except.ok ⟨d.id, d.status, some (strTrim a), d.manufacturer⟩) ∧
    (∀ (d : DeviceInfoM) (modelOutcome manuOutcome : AdbOutcome),
      modelOutcome ≠ AdbOutcome.timedOut → manuOutcome ≠ AdbOutcome.timedOut →
      ∃ d2, fetchDeviceDetailsM d modelOutcome manuOutcome = Except.ok d2 ∧
        d2.id = d.id ∧ d2.status = d.status) ∧
    (∀ (listOutcome : AdbOutcome) (rawChoice : Option Int)
        (modelOutcome manuOutcome : AdbOutcome) (devs : List DeviceInfoM)
        (d : DeviceInfoM),
      modelOutcome ≠ AdbOutcome.timedOut → manuOutcome ≠ AdbOutcome.timedOut →
      getConnectedDevicesM listOutcome = Except.ok devs →
      (devs = [d] ∨
        (2 ≤ devs.length ∧ promptForDeviceChoiceM devs rawChoice = some d)) →
      ∃ d2, select_device listOutcome rawChoice modelOutcome manuOutcome =
        SelectOutcome.selected d2 ∧ d2.id = d.id ∧ d2.status = d.status) := by
  refine ⟨?_, ?_, fetchDeviceDetails_noTimeout, ?_⟩
  · intro d s e mo
    rfl
  · intro d a b s e
    rfl
  · intro lo rc mo mu devs d h1 h2 hg hres
    exact select_device_enrich_nonfatal lo rc mo mu devs d h1 h2 hg hres

/-- Claim C9 witness: the model `getprop` call fails with a non-zero exit —
selection still returns the READY device `abc`, display fields missing. -/
theorem C9_witness :
    ∃ d2, select_device (AdbOutcome.ok deviceListStr emptyStr) none
        (AdbOutcome.calledProcessError emptyStr emptyStr)
        (AdbOutcome.ok emptyStr emptyStr) = SelectOutcome.selected d2 ∧
      d2.id = abcStr ∧ d2.status = DeviceStatusM.device := by
  have h := C9_cpe_enrichment_nonfatal.2.2.2 (AdbOutcome.ok deviceListStr emptyStr)
    none (AdbOutcome.calledProcessError emptyStr emptyStr)
    (AdbOutcome.ok emptyStr emptyStr) [abcDevice] abcDevice (by decide) (by decide)
    (by rfl) (Or.inl rfl)
  rcases h with ⟨d2, hsel, hid, hst⟩
  exact ⟨d2, hsel, by rw [hid]; rfl, by rw [hst]; rfl⟩

/-- Claim C10 counterexample: the response `"N"` is a user response other
than exactly `'n'`, yet — because the code lowercases the stripped input —
no file is deleted, refuting "for every user response other than exactly
'n' ... deletes every file". -/
theorem C10_uppercase_n_no_delete_cex :
    upperNStr ≠ nStr ∧
    (adb_push_files legacyDevices legacyFiles legacyTree upperNStr).pushedAll = true ∧
    (adb_push_files legacyDevices legacyFiles legacyTree upperNStr).deletedFiles = [] ∧
    legacyTree ≠ [] := by decide

/-- Claim C10 (amended): in the legacy entry-point flow, whenever a device
is present and every push reported exit status zero, the sync timestamp is
updated and the program prompts for local deletion; for every response
whose stripped, lowercased form differs from `"n"` — including the default
empty input — every file under the source tree is deleted, and for a
response normalizing to `"n"` nothing is deleted.  (The spec never states
that a successful sync removes local source files.) -/
theorem C10_delete_unless_n :
    ∀ (devices : List String) (files : List LegacyFile) (tree : List String)
      (answer : String),
      devices ≠ [] → files.all (fun f => f.pushExitZero) = true →
      (adb_push_files devices files tree answer).prompted = true ∧
        (adb_push_files devices files tree answer).timestampUpdated = true ∧
        (normalizeAnswer answer ≠ nStr →
          (adb_push_files devices files tree answer).deletedFiles = tree) ∧
        (normalizeAnswer answer = nStr →
          (adb_push_files devices files tree answer).deletedFiles = []) := by
  intro devices files tree answer hdev hall
  have h := adb_push_files_success devices files tree answer hdev hall
  exact ⟨h.2.1, h.2.2.1, h.2.2.2.1, h.2.2.2.2⟩

/-- Claim C10 witness: the default empty input after a fully successful run
prompts and deletes every file under the source tree. -/
theorem C10_witness :
    (adb_push_files legacyDevices legacyFiles legacyTree emptyStr).prompted = true ∧
    (adb_push_files legacyDevices legacyFiles legacyTree emptyStr).deletedFiles =
      legacyTree := by
  have h := C10_delete_unless_n legacyDevices legacyFiles legacyTree emptyStr
    (by decide) (by decide)
  exact ⟨h.1, h.2.2.1 (by decide)⟩

end AdbPhotoSync
